import Mathlib

/-!
Shallow embedding of pyscale's LoadPredictor (src/pyscale/load_predictor.py)
and verification of its specification.

Samples are embedded as lists of integers (the repository's docstrings and
examples use integer load data), frequencies as exact rationals, and the
Gumbel quantile mathematics over the reals.  The scipy Gumbel fit is an
external collaborator of the repository and is passed to the constructor as a
function parameter; the constructor stores its result exactly as the source
does.
-/

/-- Construction-time error kinds of the specification (section 7): the source
raises for insufficient data; the spec additionally names a fit error. -/
inductive PredictorError
  | insufficientData
  | fitError
deriving DecidableEq

/-- Query-time error kind of the specification (section 7): a probability
outside the open interval (0,1). -/
inductive DomainError
  | outOfDomain
deriving DecidableEq

/-- A constructed predictor: the fields set by LoadPredictor.__init__
(block size, survival table, and the Gumbel parameters). -/
structure Predictor where
  block_size : ℤ
  values : List ℤ
  frequencies : List ℚ
  shape : ℚ
  location : ℚ
  scale : ℚ
deriving DecidableEq

/-- Block-size resolution, lines 45-55 of load_predictor.py: a nonzero
explicit block_size is used (Python truthiness of the argument), otherwise
len(data)/20 with Python 2 floor division; a result below 1 is clamped to 1,
with true in the second component recording the emitted warning. -/
def resolveBlockSize (n : ℕ) (block_size : ℤ) : ℤ × Bool :=
  let b := if block_size ≠ 0 then block_size else ((n / 20 : ℕ) : ℤ)
  if b < 1 then (1, true) else (b, false)

/-- The block-maxima loop of LoadPredictor.__init__ (lines 57-74): sz and mx
are current_block_size and current_block_maximum; when a block is emitted the
running maximum is reset to 0, exactly as in the source. -/
def bmLoop (b : ℤ) : List ℤ → ℤ → ℤ → List ℤ
  | [], _, _ => []
  | v :: rest, sz, mx =>
    let mx2 := if mx < v then v else mx
    let sz2 := sz + 1
    if sz2 = b then mx2 :: bmLoop b rest 0 0 else bmLoop b rest sz2 mx2

/-- Block maxima of the data: the loop starts with current_block_size = 0 and
current_block_maximum = -sys.maxint - 1 (64-bit Python 2). -/
def blockMaxima (data : List ℤ) (b : ℤ) : List ℤ :=
  bmLoop b data 0 (-(2 ^ 63))

/-- Lines 77-79 without the final pop: the histogram keys (the distinct values
of the data) sorted ascending. -/
def sortedKeys (data : List ℤ) : List ℤ :=
  List.insertionSort (· ≤ ·) data.dedup

/-- The values component of the survival table: the sorted distinct values
with the last (largest) one popped (line 79). -/
def survivalValues (data : List ℤ) : List ℤ :=
  (sortedKeys data).dropLast

/-- The accumulation loop of lines 80-84: prev is the running variable
previous, and for each value the recorded frequency is 1 - (count/n + prev). -/
def survivalFreqsAux (data : List ℤ) : List ℤ → ℚ → List ℚ
  | [], _ => []
  | v :: vs, prev =>
    let prev2 := (data.count v : ℚ) / (data.length : ℚ) + prev
    (1 - prev2) :: survivalFreqsAux data vs prev2

/-- The frequencies component of the survival table. -/
def survivalFreqs (data : List ℤ) : List ℚ :=
  survivalFreqsAux data (survivalValues data) 0

/-- LoadPredictor.__init__ (lines 38-90): reject samples shorter than 10,
resolve the block size, build the survival table from the full sample, fit the
external Gumbel collaborator to the block maxima and store its location and
scale unchecked, with shape fixed at 0. -/
def LoadPredictor.init (fit : List ℤ → ℚ × ℚ) (data : List ℤ) (block_size : ℤ) :
    Except PredictorError Predictor :=
  if data.length < 10 then Except.error PredictorError.insufficientData
  else
    let bs := (resolveBlockSize data.length block_size).1
    let params := fit (blockMaxima data bs)
    Except.ok
      { block_size := bs
        values := survivalValues data
        frequencies := survivalFreqs data
        shape := 0
        location := params.1
        scale := params.2 }

/-- Modelled from the spec: scipy.stats.gumbel_r.isf, the inverse survival
function x = location - scale * ln(-ln(1-p)) (spec section 4.4); only its call
site is in the repository. -/
noncomputable def gumbel_isf (p location scale : ℝ) : ℝ :=
  location - scale * Real.log (-Real.log (1 - p))

/-- The Gumbel survival function S(x) = 1 - exp(-exp(-(x-location)/scale))
(spec section 4.4). -/
noncomputable def gumbelSurvival (location scale x : ℝ) : ℝ :=
  1 - Real.exp (-Real.exp (-((x - location) / scale)))

/-- LoadPredictor.predict_load (lines 92-119): a single delegation to
gumbel.isf with no validation of the probability, so it can only return ok. -/
noncomputable def LoadPredictor.predict_load (location scale probability : ℝ) :
    Except DomainError ℝ :=
  Except.ok (gumbel_isf probability location scale)

/-- predict_load as a method in state-passing form: the returned value together
with the predictor state after the call.  The source method body contains no
assignment, so the state comes back unchanged. -/
noncomputable def Predictor.predict_load_m (self : Predictor) (probability : ℝ) :
    Except DomainError ℝ × Predictor :=
  (LoadPredictor.predict_load (self.location : ℝ) (self.scale : ℝ) probability, self)

/-- survival_data (lines 121-144) in state-passing form. -/
def Predictor.survival_data_m (self : Predictor) : (List ℤ × List ℚ) × Predictor :=
  ((self.values, self.frequencies), self)

/-- gev_parameters (lines 146-169) in state-passing form. -/
def Predictor.gev_parameters_m (self : Predictor) : (ℚ × ℚ × ℚ) × Predictor :=
  ((self.shape, self.location, self.scale), self)

/-- The ten-point sample from the survival_data docstring. -/
def sampleTen : List ℤ :=
  [4352, 4472, 3847, 4915, 4969, 4333, 4381, 4091, 4135, 4034]

/-- A fit collaborator returning a degenerate (non-positive) scale. -/
def fitZero : List ℤ → ℚ × ℚ := fun _ => (0, 0)

/-- C1: the block-maxima loop resets current_block_maximum to 0 instead of to
-sys.maxint - 1 after each emitted block, so for the all-negative sample
[-1, ..., -1] of length 10 with block size 1 the computed series is
[-1, 0, 0, 0, 0, 0, 0, 0, 0, 0] and not the sample itself, contradicting the
claim that each entry is the maximum of its block. -/
theorem blockMaxima_reset_to_zero_bug :
    blockMaxima (List.replicate 10 (-1)) 1 = -1 :: List.replicate 9 0 ∧
    blockMaxima (List.replicate 10 (-1)) 1 ≠ List.replicate 10 (-1) := by
  constructor <;> decide

/-- C4: construction fails with the insufficient-data error exactly when the
sample has fewer than 10 points. -/
theorem init_insufficientData_iff (fit : List ℤ → ℚ × ℚ) (data : List ℤ) (bs : ℤ) :
    LoadPredictor.init fit data bs = Except.error PredictorError.insufficientData ↔
      data.length < 10 := by
  by_cases h : data.length < 10 <;> simp [LoadPredictor.init, h]

/-- C6: block-size resolution: an explicit positive block size is used as-is;
with no override the size is floor(n/20), clamped to 1 with a warning when the
computed value is below 1; a supplied negative size is likewise clamped with a
warning; the resolved size is always at least 1. -/
theorem resolveBlockSize_policy (n : ℕ) (bs : ℤ) :
    (0 < bs → resolveBlockSize n bs = (bs, false)) ∧
    (bs = 0 → 20 ≤ n → resolveBlockSize n bs = (((n / 20 : ℕ) : ℤ), false)) ∧
    (bs = 0 → n < 20 → resolveBlockSize n bs = (1, true)) ∧
    (bs < 0 → resolveBlockSize n bs = (1, true)) ∧
    1 ≤ (resolveBlockSize n bs).1 := by
  refine ⟨fun h => ?_, fun h0 h20 => ?_, fun h0 h20 => ?_, fun h => ?_, ?_⟩ <;>
    simp only [resolveBlockSize] <;> split_ifs <;>
    simp only [Prod.mk.injEq] <;>
    first
    | (constructor <;> omega)
    | (exfalso; omega)
    | rfl
    | omega

/-- C6 witness: concrete block-size resolutions: n = 200 with no override gives
10 without warning, n = 25 gives 1 without warning, n = 10 clamps to 1 with a
warning, and an explicit 7 is used as-is. -/
theorem resolveBlockSize_policy_witness :
    resolveBlockSize 200 0 = (10, false) ∧ resolveBlockSize 25 0 = (1, false) ∧
    resolveBlockSize 10 0 = (1, true) ∧ resolveBlockSize 30 7 = (7, false) := by
  refine ⟨?_, ?_, ?_, ?_⟩
  · have h := (resolveBlockSize_policy 200 0).2.1 rfl (by omega)
    simpa using h
  · have h := (resolveBlockSize_policy 25 0).2.1 rfl (by omega)
    simpa using h
  · exact (resolveBlockSize_policy 10 0).2.2.1 rfl (by omega)
  · exact (resolveBlockSize_policy 30 7).1 (by omega)

/-- C7 counterexample: at probability 0, which lies outside the open interval
(0,1), predict_load returns a value rather than failing with a domain error. -/
theorem predict_load_no_domain_check :
    (LoadPredictor.predict_load 0 1 0).toOption.isSome = true := rfl

/-- C7 amended: predict_load performs no domain check at all: for every
probability, in or out of (0,1), it returns ok of the gumbel.isf value and
never a domain error, and the call leaves the predictor unchanged. -/
theorem predict_load_never_fails (location scale probability : ℝ) (self : Predictor) :
    LoadPredictor.predict_load location scale probability =
      Except.ok (gumbel_isf probability location scale) ∧
    (∀ e : DomainError,
      LoadPredictor.predict_load location scale probability ≠ Except.error e) ∧
    (self.predict_load_m probability).2 = self :=
  ⟨rfl, fun _ => by simp [LoadPredictor.predict_load], rfl⟩

/-- C8 counterexample: with a fit collaborator returning the degenerate scale 0
(non-positive) on the docstring ten-point sample, construction still succeeds
and the degenerate scale is stored in the predictor. -/
theorem init_accepts_degenerate_scale :
    (LoadPredictor.init fitZero sampleTen 0).toOption.map Predictor.scale = some 0 := by
  decide

/-- C8 amended: for samples of length at least 10, construction always
succeeds: whatever location and scale the external fit returns, including a
non-positive scale, are stored without validation, and no fit error is ever
raised. -/
theorem init_stores_fit_unchecked (fit : List ℤ → ℚ × ℚ) (data : List ℤ) (bs : ℤ)
    (h : 10 ≤ data.length) :
    ∃ p : Predictor, LoadPredictor.init fit data bs = Except.ok p ∧
      p.location = (fit (blockMaxima data (resolveBlockSize data.length bs).1)).1 ∧
      p.scale = (fit (blockMaxima data (resolveBlockSize data.length bs).1)).2 ∧
      LoadPredictor.init fit data bs ≠ Except.error PredictorError.fitError := by
  have hn : ¬ data.length < 10 := by omega
  refine ⟨{ block_size := (resolveBlockSize data.length bs).1
            values := survivalValues data
            frequencies := survivalFreqs data
            shape := 0
            location := (fit (blockMaxima data (resolveBlockSize data.length bs).1)).1
            scale := (fit (blockMaxima data (resolveBlockSize data.length bs).1)).2 },
         ?_, rfl, rfl, ?_⟩ <;> simp [LoadPredictor.init, hn]

/-- C8 witness: the amended statement instantiated at the docstring ten-point
sample with the degenerate fit collaborator. -/
theorem init_stores_fit_unchecked_witness :
    10 ≤ sampleTen.length ∧
    ∃ p : Predictor, LoadPredictor.init fitZero sampleTen 0 = Except.ok p ∧
      p.location = (fitZero (blockMaxima sampleTen (resolveBlockSize sampleTen.length 0).1)).1 ∧
      p.scale = (fitZero (blockMaxima sampleTen (resolveBlockSize sampleTen.length 0).1)).2 ∧
      LoadPredictor.init fitZero sampleTen 0 ≠ Except.error PredictorError.fitError :=
  ⟨by decide, init_stores_fit_unchecked fitZero sampleTen 0 (by decide)⟩

/-- C9: every query method leaves the predictor state unchanged and a repeated
call with the same argument returns the identical result. -/
theorem query_methods_pure (self : Predictor) (probability : ℝ) :
    (self.predict_load_m probability).2 = self ∧
    self.survival_data_m.2 = self ∧
    self.gev_parameters_m.2 = self ∧
    ((self.predict_load_m probability).2.predict_load_m probability).1 =
      (self.predict_load_m probability).1 ∧
    (self.survival_data_m.2.survival_data_m).1 = self.survival_data_m.1 ∧
    (self.gev_parameters_m.2.gev_parameters_m).1 = self.gev_parameters_m.1 :=
  ⟨rfl, rfl, rfl, rfl, rfl, rfl⟩

/-- The sorted key list is sorted with respect to the weak order. -/
theorem sortedKeys_sorted_le (d : List ℤ) : (sortedKeys d).Sorted (· ≤ ·) :=
  List.sorted_insertionSort _ _

/-- The sorted key list has no duplicates, because dictionary keys are
distinct. -/
theorem sortedKeys_nodup (d : List ℤ) : (sortedKeys d).Nodup :=
  (List.perm_insertionSort _ _).symm.nodup (List.nodup_dedup d)

/-- The sorted key list is strictly ascending. -/
theorem sortedKeys_sorted_lt (d : List ℤ) : (sortedKeys d).Sorted (· < ·) :=
  (sortedKeys_sorted_le d).lt_of_le (sortedKeys_nodup d)

/-- Membership in the sorted key list is membership in the data. -/
theorem mem_sortedKeys {d : List ℤ} {v : ℤ} : v ∈ sortedKeys d ↔ v ∈ d := by
  rw [sortedKeys, List.mem_insertionSort, List.mem_dedup]

/-- In a strictly sorted list, filtering by being at most the i-th element
yields exactly the first i+1 elements. -/
theorem sorted_filter_le_take :
    ∀ (l : List ℤ), l.Sorted (· < ·) → ∀ (i : ℕ) (hi : i < l.length),
      l.filter (fun v => v ≤ l[i]) = l.take (i + 1) := by
  intro l
  induction l with
  | nil => intro _ i hi; simp at hi
  | cons a l ih =>
    intro hl i hi
    rcases List.sorted_cons.mp hl with ⟨ha, hl2⟩
    cases i with
    | zero =>
      simp only [List.getElem_cons_zero, List.take_succ_cons, List.take_zero]
      rw [List.filter_cons_of_pos (by simp)]
      congr 1
      rw [List.filter_eq_nil_iff]
      intro x hx
      simp only [decide_eq_true_eq]
      exact not_le.mpr (ha x hx)
    | succ i =>
      have hi2 : i < l.length := by simpa using hi
      simp only [List.getElem_cons_succ, List.take_succ_cons]
      rw [List.filter_cons_of_pos
        (by simp only [decide_eq_true_eq]; exact le_of_lt (ha _ (List.getElem_mem hi2)))]
      rw [ih hl2 i hi2]

/-- Summing the data counts of the first i+1 sorted keys counts the data
elements at most the i-th key. -/
theorem take_counts_eq_countP (d : List ℤ) (i : ℕ) (hi : i < (sortedKeys d).length) :
    (((sortedKeys d).take (i + 1)).map (fun v => d.count v)).sum =
      d.countP (fun x => x ≤ (sortedKeys d)[i]) := by
  rw [← List.sum_map_count_dedup_filter_eq_countP]
  rw [← sorted_filter_le_take _ (sortedKeys_sorted_lt d) i hi]
  exact (((List.perm_insertionSort _ _).filter _).map _).sum_eq

/-- A sum of terms divided by a constant is the divided sum. -/
theorem sum_map_div_const (l : List ℤ) (f : ℤ → ℚ) (c : ℚ) :
    (l.map fun v => f v / c).sum = (l.map f).sum / c := by
  induction l with
  | nil => simp
  | cons a l ih => simp [ih, add_div]

/-- The accumulation loop produces one frequency per value. -/
theorem survivalFreqsAux_length (d : List ℤ) :
    ∀ (vs : List ℤ) (prev : ℚ), (survivalFreqsAux d vs prev).length = vs.length := by
  intro vs
  induction vs with
  | nil => intro prev; rfl
  | cons v vs ih => intro prev; simp [survivalFreqsAux, ih]

/-- The i-th output of the accumulation loop is one minus the starting
accumulator plus the cumulative mass of the first i+1 values. -/
theorem survivalFreqsAux_getElem (d : List ℤ) :
    ∀ (vs : List ℤ) (prev : ℚ) (i : ℕ), i < vs.length →
      (survivalFreqsAux d vs prev)[i]? =
        some (1 - (prev +
          ((vs.take (i + 1)).map (fun v => (d.count v : ℚ) / (d.length : ℚ))).sum)) := by
  intro vs
  induction vs with
  | nil => intro prev i h; simp at h
  | cons v vs ih =>
    intro prev i h
    cases i with
    | zero =>
      simp only [survivalFreqsAux, List.getElem?_cons_zero, List.take_succ_cons,
        List.take_zero, List.map_cons, List.map_nil, List.sum_cons, List.sum_nil,
        Option.some.injEq]
      ring
    | succ i =>
      have h2 : i < vs.length := by simpa using h
      simp only [survivalFreqsAux, List.getElem?_cons_succ]
      rw [ih _ i h2]
      simp only [List.take_succ_cons, List.map_cons, List.sum_cons, Option.some.injEq]
      ring

/-- Popping the last element shortens the key list by one. -/
theorem survivalValues_length (d : List ℤ) :
    (survivalValues d).length = (sortedKeys d).length - 1 := by
  simp [survivalValues]

/-- A proper prefix of the popped key list is a prefix of the full key list. -/
theorem survivalValues_take (d : List ℤ) (i : ℕ) (hi : i < (survivalValues d).length) :
    (survivalValues d).take (i + 1) = (sortedKeys d).take (i + 1) := by
  rw [survivalValues, List.dropLast_eq_take, List.take_take]
  congr 1
  rw [survivalValues_length] at hi
  omega

/-- The counts of elements at most c and strictly above c partition the
sample. -/
theorem countP_le_add_countP_lt (d : List ℤ) (c : ℤ) :
    d.countP (fun x => x ≤ c) + d.countP (fun x => c < x) = d.length := by
  rw [List.length_eq_countP_add_countP (p := fun x => decide (x ≤ c))]
  congr 1
  apply List.countP_congr
  intro x _
  simp [not_le]

/-- The i-th recorded frequency is the fraction of samples strictly greater
than the i-th surviving value. -/
theorem survivalFreqs_getElem (d : List ℤ) (i : ℕ)
    (hi : i < (survivalValues d).length) :
    (survivalFreqs d)[i]? =
      some ((d.countP (fun x => (survivalValues d)[i] < x) : ℚ) / (d.length : ℚ)) := by
  have hne : d ≠ [] := by
    intro h
    subst h
    simp [survivalValues, sortedKeys] at hi
  have hn0 : 0 < d.length := List.length_pos.mpr hne
  have hnQ : ((d.length : ℚ)) ≠ 0 := by positivity
  have hiK : i < (sortedKeys d).length := by
    rw [survivalValues_length] at hi; omega
  rw [survivalFreqs, survivalFreqsAux_getElem d _ _ i hi]
  rw [survivalValues_take d i hi]
  rw [sum_map_div_const]
  have hcast : (((sortedKeys d).take (i + 1)).map (fun v => (d.count v : ℚ))).sum
      = ((((sortedKeys d).take (i + 1)).map (fun v => d.count v)).sum : ℚ) := by
    rw [Nat.cast_list_sum, List.map_map]
    rfl
  rw [hcast, take_counts_eq_countP d i hiK]
  have hvi : (survivalValues d)[i] = (sortedKeys d)[i] := List.getElem_dropLast ..
  rw [hvi]
  have hsplit := countP_le_add_countP_lt d ((sortedKeys d)[i])
  have hsplitQ : ((d.countP (fun x => x ≤ (sortedKeys d)[i]) : ℚ)) +
      ((d.countP (fun x => (sortedKeys d)[i] < x) : ℚ)) = (d.length : ℚ) := by
    exact_mod_cast hsplit
  rw [Option.some.injEq]
  field_simp
  linarith

/-- The surviving values are strictly ascending. -/
theorem survivalValues_sorted_lt (d : List ℤ) : (survivalValues d).Sorted (· < ·) :=
  (sortedKeys_sorted_lt d).sublist (List.dropLast_sublist _)

/-- A nonempty sample has a nonempty sorted key list. -/
theorem sortedKeys_ne_nil {d : List ℤ} (hd : d ≠ []) : sortedKeys d ≠ [] := by
  intro h
  have : (d.dedup).length = 0 := by
    have := (List.perm_insertionSort (· ≤ ·) d.dedup).length_eq
    rw [sortedKeys] at h
    rw [h] at this
    simpa using this.symm
  exact hd ((List.dedup_eq_nil d).mp (List.length_eq_zero.mp this))

/-- Every sorted key is at most the last one. -/
theorem le_getLast_of_mem {d : List ℤ} (hK : sortedKeys d ≠ []) {x : ℤ}
    (hx : x ∈ sortedKeys d) : x ≤ (sortedKeys d).getLast hK := by
  have hdec := List.dropLast_concat_getLast hK
  have hs := sortedKeys_sorted_le d
  rw [← hdec] at hs hx
  rcases List.mem_append.mp hx with h1 | h1
  · exact (List.pairwise_append.mp hs).2.2 x h1 _ (by simp)
  · simp at h1
    simp [h1]

/-- The surviving values are exactly the observed values that some other
observation strictly exceeds, i.e. all distinct values except the largest. -/
theorem mem_survivalValues {d : List ℤ} (hd : d ≠ []) (v : ℤ) :
    v ∈ survivalValues d ↔ v ∈ d ∧ ∃ w ∈ d, v < w := by
  have hK : sortedKeys d ≠ [] := sortedKeys_ne_nil hd
  have hdec := List.dropLast_concat_getLast hK
  constructor
  · intro hv
    have hvK : v ∈ sortedKeys d := by
      rw [← hdec]
      exact List.mem_append_left _ hv
    refine ⟨mem_sortedKeys.mp hvK, (sortedKeys d).getLast hK, ?_, ?_⟩
    · exact mem_sortedKeys.mp (List.getLast_mem hK)
    · have hs := sortedKeys_sorted_lt d
      rw [← hdec] at hs
      exact (List.pairwise_append.mp hs).2.2 v hv _ (by simp)
  · rintro ⟨hvd, w, hwd, hvw⟩
    have hvK : v ∈ sortedKeys d := mem_sortedKeys.mpr hvd
    rw [← hdec] at hvK
    rcases List.mem_append.mp hvK with h1 | h1
    · exact h1
    · exfalso
      simp at h1
      have hwK : w ∈ sortedKeys d := mem_sortedKeys.mpr hwd
      have := le_getLast_of_mem hK hwK
      omega

/-- The survival table is one frequency per surviving value. -/
theorem survivalFreqs_length (d : List ℤ) :
    (survivalFreqs d).length = (survivalValues d).length :=
  survivalFreqsAux_length d (survivalValues d) 0

/-- The frequency formula in plain getElem form. -/
theorem survivalFreqs_getElem_val (d : List ℤ) (i : ℕ)
    (hiV : i < (survivalValues d).length) (hiF : i < (survivalFreqs d).length) :
    (survivalFreqs d)[i] =
      ((d.countP (fun x => (survivalValues d)[i] < x) : ℚ) / (d.length : ℚ)) := by
  have hg := survivalFreqs_getElem d i hiV
  rw [List.getElem?_eq_getElem hiF] at hg
  exact Option.some.inj hg

/-- Every recorded frequency lies strictly between 0 and 1. -/
theorem survivalFreqs_bounds (d : List ℤ) (hd : d ≠ []) :
    ∀ f ∈ survivalFreqs d, 0 < f ∧ f < 1 := by
  intro f hf
  rcases List.mem_iff_getElem.mp hf with ⟨i, hiF, rfl⟩
  have hiV : i < (survivalValues d).length := by
    have := survivalFreqs_length d
    omega
  rw [survivalFreqs_getElem_val d i hiV hiF]
  have hvi_mem : (survivalValues d)[i] ∈ survivalValues d := List.getElem_mem hiV
  rcases (mem_survivalValues hd _).mp hvi_mem with ⟨hvd, w, hwd, hvw⟩
  have hn0 : 0 < d.length := List.length_pos.mpr hd
  have hA : 0 < d.countP (fun x => (survivalValues d)[i] < x) := by
    rw [List.countP_pos_iff]
    exact ⟨w, hwd, by simpa using hvw⟩
  have hle : 0 < d.countP (fun x => x ≤ (survivalValues d)[i]) := by
    rw [List.countP_pos_iff]
    exact ⟨(survivalValues d)[i], hvd, by simp⟩
  have hsplit := countP_le_add_countP_lt d ((survivalValues d)[i])
  have hB : d.countP (fun x => (survivalValues d)[i] < x) < d.length := by omega
  constructor
  · apply div_pos
    · exact_mod_cast hA
    · exact_mod_cast hn0
  · rw [div_lt_one (by exact_mod_cast hn0)]
    exact_mod_cast hB

/-- The recorded frequencies are non-increasing along the table. -/
theorem survivalFreqs_antitone (d : List ℤ) :
    (survivalFreqs d).Sorted (fun a b => b ≤ a) := by
  unfold List.Sorted
  rw [List.pairwise_iff_getElem]
  intro i j hi hj hij
  have hL := survivalFreqs_length d
  have hiV : i < (survivalValues d).length := by omega
  have hjV : j < (survivalValues d).length := by omega
  rw [survivalFreqs_getElem_val d i hiV hi, survivalFreqs_getElem_val d j hjV hj]
  have hvv : (survivalValues d)[i] < (survivalValues d)[j] := by
    have hs := survivalValues_sorted_lt d
    unfold List.Sorted at hs
    exact (List.pairwise_iff_getElem.mp hs) i j hiV hjV hij
  have hmono : d.countP (fun x => (survivalValues d)[j] < x) ≤
      d.countP (fun x => (survivalValues d)[i] < x) := by
    apply List.countP_mono_left
    intro x _ hx
    simp only [decide_eq_true_eq] at hx ⊢
    omega
  have hn0Q : (0 : ℚ) < (d.length : ℚ) := by
    have hlen : 0 < (survivalValues d).length := by omega
    have hd : d ≠ [] := by
      intro h0
      subst h0
      simp [survivalValues, sortedKeys] at hlen
    have := List.length_pos.mpr hd
    exact_mod_cast this
  rw [div_le_div_iff₀ hn0Q hn0Q]
  have : (d.countP (fun x => (survivalValues d)[j] < x) : ℚ) ≤
      (d.countP (fun x => (survivalValues d)[i] < x) : ℚ) := by exact_mod_cast hmono
  nlinarith

/-- A nonempty constant list deduplicates to the single value. -/
theorem dedup_replicate (n : ℕ) (c : ℤ) (h : 0 < n) :
    (List.replicate n c).dedup = [c] := by
  induction n with
  | zero => omega
  | succ n ih =>
    rcases Nat.eq_zero_or_pos n with h0 | h0
    · subst h0
      simp
    · rw [List.replicate_succ, List.dedup_cons_of_mem (by simp [List.mem_replicate]; omega)]
      exact ih h0

/-- A constant sample has no surviving values: its single distinct value is
popped as the maximum. -/
theorem survivalValues_replicate (n : ℕ) (c : ℤ) (h : 0 < n) :
    survivalValues (List.replicate n c) = [] := by
  rw [survivalValues, sortedKeys, dedup_replicate n c h]
  rfl

/-- A constant sample has no recorded frequencies. -/
theorem survivalFreqs_replicate (n : ℕ) (c : ℤ) (h : 0 < n) :
    survivalFreqs (List.replicate n c) = [] := by
  rw [survivalFreqs, survivalValues_replicate n c h]
  rfl

/-- C2: for every sample accepted at construction, the survival table's values
are strictly ascending and are exactly the distinct observed values that some
other observation strictly exceeds (the single largest distinct value is
removed, ties collapse to one entry), and the i-th frequency is the fraction
of all samples strictly greater than the i-th value. -/
theorem survival_table_correct (data : List ℤ) (h : 10 ≤ data.length) :
    (survivalValues data).Sorted (· < ·) ∧
    (∀ v : ℤ, v ∈ survivalValues data ↔ v ∈ data ∧ ∃ w ∈ data, v < w) ∧
    (survivalFreqs data).length = (survivalValues data).length ∧
    ∀ (i : ℕ) (hi : i < (survivalValues data).length),
      (survivalFreqs data)[i]? =
        some ((data.countP (fun x => (survivalValues data)[i] < x) : ℚ) /
          (data.length : ℚ)) := by
  have hd : data ≠ [] := by
    intro h0
    subst h0
    simp at h
  exact ⟨survivalValues_sorted_lt data, mem_survivalValues hd,
    survivalFreqs_length data, fun i hi => survivalFreqs_getElem data i hi⟩

/-- C2 witness: the survival-table correctness statement instantiated at the
docstring ten-point sample. -/
theorem survival_table_correct_witness :
    10 ≤ sampleTen.length ∧
    ((survivalValues sampleTen).Sorted (· < ·) ∧
     (∀ v : ℤ, v ∈ survivalValues sampleTen ↔ v ∈ sampleTen ∧ ∃ w ∈ sampleTen, v < w) ∧
     (survivalFreqs sampleTen).length = (survivalValues sampleTen).length ∧
     ∀ (i : ℕ) (hi : i < (survivalValues sampleTen).length),
       (survivalFreqs sampleTen)[i]? =
         some ((sampleTen.countP (fun x => (survivalValues sampleTen)[i] < x) : ℚ) /
           (sampleTen.length : ℚ))) :=
  ⟨by decide, survival_table_correct sampleTen (by decide)⟩

/-- C5: for every sample of length at least 10 construction succeeds, and the
survival table it stores has strictly ascending values, equally many
frequencies, every frequency strictly between 0 and 1, and non-increasing
frequencies. -/
theorem init_survival_invariants (fit : List ℤ → ℚ × ℚ) (data : List ℤ) (bs : ℤ)
    (h : 10 ≤ data.length) :
    ∃ p : Predictor, LoadPredictor.init fit data bs = Except.ok p ∧
      p.values.Sorted (· < ·) ∧
      p.frequencies.length = p.values.length ∧
      (∀ f ∈ p.frequencies, 0 < f ∧ f < 1) ∧
      p.frequencies.Sorted (fun a b => b ≤ a) := by
  have hd : data ≠ [] := by
    intro h0
    subst h0
    simp at h
  have hn : ¬ data.length < 10 := by omega
  refine ⟨{ block_size := (resolveBlockSize data.length bs).1
            values := survivalValues data
            frequencies := survivalFreqs data
            shape := 0
            location := (fit (blockMaxima data (resolveBlockSize data.length bs).1)).1
            scale := (fit (blockMaxima data (resolveBlockSize data.length bs).1)).2 },
         ?_, survivalValues_sorted_lt data, survivalFreqs_length data,
         survivalFreqs_bounds data hd, survivalFreqs_antitone data⟩
  simp [LoadPredictor.init, hn]

/-- C5 witness: the construction invariants instantiated at the docstring
ten-point sample with the degenerate fit collaborator. -/
theorem init_survival_invariants_witness :
    10 ≤ sampleTen.length ∧
    ∃ p : Predictor, LoadPredictor.init fitZero sampleTen 0 = Except.ok p ∧
      p.values.Sorted (· < ·) ∧
      p.frequencies.length = p.values.length ∧
      (∀ f ∈ p.frequencies, 0 < f ∧ f < 1) ∧
      p.frequencies.Sorted (fun a b => b ≤ a) :=
  ⟨by decide, init_survival_invariants fitZero sampleTen 0 (by decide)⟩

/-- C10: for a constant sample of length at least 10 construction succeeds and
the survival table is empty: the single distinct value is popped as the
maximum before any frequency is accumulated, so survival_data returns a pair
of empty sequences. -/
theorem constant_sample_empty_table (n : ℕ) (c : ℤ) (h : 10 ≤ n)
    (fit : List ℤ → ℚ × ℚ) (bs : ℤ) :
    survivalValues (List.replicate n c) = [] ∧
    survivalFreqs (List.replicate n c) = [] ∧
    ∃ p : Predictor, LoadPredictor.init fit (List.replicate n c) bs = Except.ok p ∧
      p.survival_data_m.1 = ([], []) := by
  have h0 : 0 < n := by omega
  have hn : ¬ (List.replicate n c).length < 10 := by
    simp only [List.length_replicate]
    omega
  refine ⟨survivalValues_replicate n c h0, survivalFreqs_replicate n c h0, ?_⟩
  refine ⟨{ block_size := (resolveBlockSize (List.replicate n c).length bs).1
            values := survivalValues (List.replicate n c)
            frequencies := survivalFreqs (List.replicate n c)
            shape := 0
            location := (fit (blockMaxima (List.replicate n c)
              (resolveBlockSize (List.replicate n c).length bs).1)).1
            scale := (fit (blockMaxima (List.replicate n c)
              (resolveBlockSize (List.replicate n c).length bs).1)).2 },
         ?_, ?_⟩
  · simp only [LoadPredictor.init, if_neg hn]
  · simp [Predictor.survival_data_m, survivalValues_replicate n c h0,
      survivalFreqs_replicate n c h0]

/-- C10 witness: the empty-survival-table statement instantiated at the
constant sample of ten fives. -/
theorem constant_sample_empty_table_witness :
    (10 : ℕ) ≤ 10 ∧
    (survivalValues (List.replicate 10 (5 : ℤ)) = [] ∧
     survivalFreqs (List.replicate 10 (5 : ℤ)) = [] ∧
     ∃ p : Predictor,
       LoadPredictor.init fitZero (List.replicate 10 (5 : ℤ)) 0 = Except.ok p ∧
       p.survival_data_m.1 = ([], [])) :=
  ⟨by decide, constant_sample_empty_table 10 5 (by decide) fitZero 0⟩

/-- C3: predict_load(p) is location - scale * ln(-ln(1-p)), and applying the
Gumbel survival function to it gives back p, for every location, positive
scale and probability p strictly between 0 and 1. -/
theorem predict_load_inverse (location scale p : ℝ) (hs : 0 < scale)
    (hp0 : 0 < p) (hp1 : p < 1) :
    LoadPredictor.predict_load location scale p =
      Except.ok (location - scale * Real.log (-Real.log (1 - p))) ∧
    gumbelSurvival location scale (gumbel_isf p location scale) = p := by
  refine ⟨rfl, ?_⟩
  have h1p : 0 < 1 - p := by linarith
  have hlt1 : 1 - p < 1 := by linarith
  have hL : Real.log (1 - p) < 0 := Real.log_neg h1p hlt1
  have hnegL : 0 < -Real.log (1 - p) := by linarith
  unfold gumbelSurvival gumbel_isf
  have hx : -((location - scale * Real.log (-Real.log (1 - p)) - location) / scale)
      = Real.log (-Real.log (1 - p)) := by
    field_simp
  rw [hx, Real.exp_log hnegL, neg_neg, Real.exp_log h1p]
  ring

/-- C3 witness: the inversion property instantiated at location 0, scale 1 and
probability one half. -/
theorem predict_load_inverse_witness :
    (0 : ℝ) < 1 ∧ (0 : ℝ) < 1 / 2 ∧ (1 / 2 : ℝ) < 1 ∧
    (LoadPredictor.predict_load 0 1 (1 / 2) =
       Except.ok (0 - 1 * Real.log (-Real.log (1 - 1 / 2))) ∧
     gumbelSurvival 0 1 (gumbel_isf (1 / 2) 0 1) = 1 / 2) :=
  ⟨one_pos, one_half_pos, one_half_lt_one,
    predict_load_inverse 0 1 (1 / 2) one_pos one_half_pos one_half_lt_one⟩

/-- C4 witness: a three-point sample is rejected with the insufficient-data
error. -/
theorem init_insufficientData_iff_witness :
    LoadPredictor.init fitZero [1, 2, 3] 0 = Except.error PredictorError.insufficientData :=
  (init_insufficientData_iff fitZero [1, 2, 3] 0).mpr (by decide)
